import Mathlib

/-!
Shallow embedding of `src/types/url.rs` from the nostr-types repository:
the `Url` value type (a string plus a cached URI-validity flag), its
construction with trailing-slash normalization, its validity predicates,
and its string-scalar (de)serialization, together with proofs of the
specified properties.

The generic URI parser used by the source (`http::Uri`) is an external
dependency; it is modelled here from the specification's grammar
description (scheme, optional authority with userinfo/host/port, path,
optional query, optional fragment).  All properties proved about the
`Url` logic below depend only on the structure of that logic, not on the
fine details of the parser model.
-/

namespace Nostr

/-- Modelled from the spec: characters admitted by the generic URI grammar
(unreserved, reserved and percent characters); whitespace and other
characters are structurally invalid in a URI. -/
def uriSymbols : List Char :=
  ['-', '.', '_', '~', ':', '/', '?', '#', '[', ']', '@', '!', '$', '&',
   '(', ')', '*', '+', ',', ';', '=', '%']

/-- Modelled from the spec: whether a character may appear in a URI. -/
def isUriChar (c : Char) : Bool :=
  c.isAlphanum || uriSymbols.contains c

/-- Split a character list at the first occurrence of `c`, dropping `c`. -/
def splitFirst : List Char → Char → Option (List Char × List Char)
  | [], _ => none
  | x :: xs, c =>
    if x = c then some ([], xs)
    else
      match splitFirst xs c with
      | some (a, b) => some (x :: a, b)
      | none => none

/-- Split a character list at the first occurrence of the three-character
sequence `://`, dropping that sequence. -/
def splitScheme : List Char → Option (List Char × List Char)
  | [] => none
  | ':' :: '/' :: '/' :: rest => some ([], rest)
  | x :: xs =>
    match splitScheme xs with
    | some (a, b) => some (x :: a, b)
    | none => none

/-- Modelled from the spec: a scheme is a nonempty alphabetic-initial token
of alphanumeric, plus, minus or dot characters. -/
def validScheme : List Char → Bool
  | [] => false
  | c :: rest => c.isAlpha && rest.all fun x => x.isAlphanum || x = '+' || x = '-' || x = '.'

/-- The authority component of a parsed URI: optional userinfo, a host, and
an optional port. -/
structure Authority where
  userinfo : Option String
  host : String
  port : Option String
deriving DecidableEq

/-- A parsed URI: optional scheme, optional authority, path, optional query,
optional fragment. -/
structure Uri where
  scheme : Option String
  authority : Option Authority
  path : String
  query : Option String
  fragment : Option String
deriving DecidableEq

/-- Modelled from the spec: parse an authority as `[userinfo @] host [: port]`,
where a bracketed host runs through its closing bracket and a port is a
nonempty digit string.  Fails on an empty host. -/
def parseAuthority (l : List Char) : Option Authority :=
  if l.isEmpty then none
  else
    let p :=
      match splitFirst l '@' with
      | some (u, rest) => (some (String.mk u), rest)
      | none => ((none : Option String), l)
    let userinfo := p.1
    match p.2 with
    | '[' :: rest =>
      match splitFirst rest ']' with
      | some (inside, after) =>
        let host := String.mk ('[' :: (inside ++ [']']))
        match after with
        | [] => some ⟨userinfo, host, none⟩
        | ':' :: port =>
          if port ≠ [] ∧ port.all Char.isDigit then
            some ⟨userinfo, host, some (String.mk port)⟩
          else none
        | _ => none
      | none => none
    | hostport =>
      match splitFirst hostport ':' with
      | some (h, port) =>
        if h ≠ [] ∧ port ≠ [] ∧ port.all Char.isDigit then
          some ⟨userinfo, String.mk h, some (String.mk port)⟩
        else none
      | none =>
        if hostport ≠ [] then some ⟨userinfo, String.mk hostport, none⟩ else none

/-- Modelled from the spec: the external generic URI parser.  A URI is
`[scheme ://] [authority] path [? query] [# fragment]`; parsing fails on
the empty string, on characters outside the URI character set (in
particular on whitespace), on a malformed scheme and on a malformed or
empty authority. -/
def parseUri (s : String) : Option Uri :=
  let chars := s.data
  if chars.isEmpty then none
  else if !chars.all isUriChar then none
  else
    let f :=
      match splitFirst chars '#' with
      | some (a, b) => (a, some (String.mk b))
      | none => (chars, (none : Option String))
    let q :=
      match splitFirst f.1 '?' with
      | some (a, b) => (a, some (String.mk b))
      | none => (f.1, (none : Option String))
    match splitScheme q.1 with
    | some (schemeChars, rest) =>
      if validScheme schemeChars then
        match splitFirst rest '/' with
        | some (auth, pathRest) =>
          match parseAuthority auth with
          | some a =>
            some ⟨some (String.mk schemeChars), some a,
                  String.mk ('/' :: pathRest), q.2, f.2⟩
          | none => none
        | none =>
          match parseAuthority rest with
          | some a => some ⟨some (String.mk schemeChars), some a, "", q.2, f.2⟩
          | none => none
      else none
    | none => some ⟨none, none, String.mk q.1, q.2, f.2⟩

/-- Translation of `str::trim` restricted to ASCII whitespace: drop leading
and trailing whitespace characters. -/
def trimChars (l : List Char) : List Char :=
  ((l.dropWhile Char.isWhitespace).reverse.dropWhile Char.isWhitespace).reverse

/-- Translation of `str::trim` on strings. -/
def strTrim (s : String) : String :=
  String.mk (trimChars s.data)

/-- Translation of `str::starts_with` with a string pattern. -/
def hostStarts (host pat : String) : Bool :=
  pat.data.isPrefixOf host.data

/-- Translation of `struct Url(String, bool)`: the stored (normalized) text
and the cached URI-validity flag. -/
structure Url where
  text : String
  is_valid_uri : Bool
deriving DecidableEq

/-- Normalization step of `Url::new`: Rust checks `s.ends_with('/')` and, if
so, slices off the final byte.  Since `/` is a one-byte character, ending
with `'/'` is exactly "the last character is `/`", and the byte slice
`&s[0..s.len()-1]` is exactly "drop the last character". -/
def normalize (s : String) : String :=
  if s.data.getLast? = some '/' then String.mk s.data.dropLast else s

/-- Translation of `Url::new`: strip a single trailing slash, then cache
structural URI validity of the result. -/
def Url.new (s : String) : Url :=
  let s2 := normalize s
  ⟨s2, (parseUri s2).isSome⟩

/-- Translation of `Url::inner`. -/
def Url.inner (u : Url) : String :=
  u.text

/-- Translation of `Url::is_valid`. -/
def Url.is_valid (u : Url) : Bool :=
  u.is_valid_uri

/-- Translation of `Url::is_valid_relay_url`: re-parse the stored text, then
require a `wss` or `ws` scheme, an authority, and a host that equals its
trimmed form and starts with none of the blocked literal prefixes. -/
def Url.is_valid_relay_url (u : Url) : Bool :=
  match parseUri u.text with
  | some uri =>
    match uri.scheme with
    | some scheme =>
      if scheme = "wss" ∨ scheme = "ws" then
        match uri.authority with
        | some authority =>
          let host := authority.host
          host == strTrim host
            && !(hostStarts host "localhost")
            && !(hostStarts host "127.")
            && !(hostStarts host "[::1/")
            && !(hostStarts host "[0:")
        | none => false
      else false
    | none => false
  | none => false

/-- Translation of `Url::mock`. -/
def Url.mock : Url :=
  ⟨"wss://example.com", true⟩

/-- Modelled from the spec: the space of scalar values the codec layer can
hand to this type, collapsed to "a string" versus "anything else". -/
inductive Value where
  | str (s : String)
  | other
deriving DecidableEq

/-- Modelled from the spec: the pass-through structural error of the codec
layer when the encoded value is not a string. -/
inductive DeError where
  | invalidType
deriving DecidableEq

/-- Translation of `Serialize for Url`: emit exactly the stored text as a
string scalar. -/
def Url.serialize (u : Url) : Value :=
  Value.str u.text

/-- Translation of `UrlVisitor::visit_str`: always succeeds with `Url::new`. -/
def UrlVisitor.visit_str (v : String) : Except DeError Url :=
  Except.ok (Url.new v)

/-- Translation of `Deserialize for Url`: string scalars go through the
visitor; a non-string scalar is a pass-through codec error (modelled from
the spec). -/
def Url.deserialize (v : Value) : Except DeError Url :=
  match v with
  | Value.str s => UrlVisitor.visit_str s
  | Value.other => Except.error DeError.invalidType

/-! ### Helper lemmas -/

theorem normalize_of_last_ne (s : String) (h : ¬ s.data.getLast? = some '/') :
    normalize s = s := by
  simp [normalize, h]

theorem normalize_of_last_eq (s : String) (h : s.data.getLast? = some '/') :
    normalize s = String.mk s.data.dropLast := by
  simp [normalize, h]

theorem mk_append (l1 l2 : List Char) :
    String.mk l1 ++ String.mk l2 = String.mk (l1 ++ l2) := rfl

theorem new_inner (s : String) : (Url.new s).inner = normalize s := rfl

/-! ### Claims -/

/-- Claim C2 (confirmed): for every input string `s`, `new(s).inner()` is `s`
with exactly its last character removed when `s` ends with the character
`/`, and is `s` unchanged otherwise; in particular `new("/").inner()` is
empty and `new("wss://example.com/").inner()` is `"wss://example.com"`. -/
theorem trailing_slash_policy :
    (∀ s : String,
      (s.data.getLast? = some '/' → (Url.new s).inner = String.mk s.data.dropLast)
      ∧ (¬ s.data.getLast? = some '/' → (Url.new s).inner = s))
    ∧ (Url.new "/").inner = ""
    ∧ (Url.new "wss://example.com/").inner = "wss://example.com" := by
  refine ⟨fun s => ⟨fun h => ?_, fun h => ?_⟩, by decide, by decide⟩
  · rw [new_inner, normalize_of_last_eq s h]
  · rw [new_inner, normalize_of_last_ne s h]

/-- Witness for C2 at the concrete input `"ab/"`. -/
theorem trailing_slash_policy_witness :
    ("ab/".data.getLast? = some '/')
    ∧ (Url.new "ab/").inner = String.mk "ab/".data.dropLast :=
  ⟨by decide, (trailing_slash_policy.1 "ab/").1 (by decide)⟩

/-- Claim C7 (confirmed): the validity flag cached by `new` is exactly the
result of parsing the stored normalized text as a URI, so it is always
reproducible from `inner()`. -/
theorem cached_flag_invariant (s : String) :
    (Url.new s).is_valid = (parseUri (Url.new s).inner).isSome := rfl

/-- Claim C8 (confirmed): two constructed values are equal iff their stored
texts are equal; the derived field-by-field equality adds nothing because
the validity flag is determined by the text. -/
theorem eq_iff_inner_eq (s1 s2 : String) :
    Url.new s1 = Url.new s2 ↔ (Url.new s1).inner = (Url.new s2).inner := by
  constructor
  · intro h
    exact congrArg Url.inner h
  · intro h
    have ht : normalize s1 = normalize s2 := h
    show (⟨normalize s1, (parseUri (normalize s1)).isSome⟩ : Url)
      = ⟨normalize s2, (parseUri (normalize s2)).isSome⟩
    rw [ht]

/-- Claim C1 (counterexample): the round-trip contract fails as stated.  For
`u = new("wss://example.com//")` the stored text is `"wss://example.com/"`,
and decoding the encoded text constructs `new("wss://example.com/")`, which
strips one more `/`, so `decode(encode(u)) ≠ u`. -/
theorem roundtrip_counterexample :
    Url.deserialize (Url.serialize (Url.new "wss://example.com//")) ≠
      Except.ok (Url.new "wss://example.com//") := by
  intro h
  have h2 : Except.ok (Url.new "wss://example.com/") =
      Except.ok (Url.new "wss://example.com//") := h
  have h3 := congrArg Url.inner (Except.ok.inj h2)
  exact absurd h3 (by decide)

/-- Claim C1 (amended): for every `u` constructed via `new` whose stored text
does not end with `/`, decoding the encoded form of `u` yields exactly
`u`; encode emits the stored text and decode constructs via `new` on it. -/
theorem roundtrip_amended (s : String)
    (h : ¬ (Url.new s).inner.data.getLast? = some '/') :
    Url.deserialize (Url.serialize (Url.new s)) = Except.ok (Url.new s) := by
  have hn : normalize (normalize s) = normalize s := normalize_of_last_ne (normalize s) h
  have key : Url.new (normalize s) = Url.new s := by
    show (⟨normalize (normalize s), (parseUri (normalize (normalize s))).isSome⟩ : Url)
      = ⟨normalize s, (parseUri (normalize s)).isSome⟩
    rw [hn]
  calc Url.deserialize (Url.serialize (Url.new s))
      = Except.ok (Url.new (normalize s)) := rfl
    _ = Except.ok (Url.new s) := by rw [key]

/-- Witness for amended C1 at the concrete input `"wss://example.com/"`. -/
theorem roundtrip_amended_witness :
    (¬ (Url.new "wss://example.com/").inner.data.getLast? = some '/')
    ∧ Url.deserialize (Url.serialize (Url.new "wss://example.com/")) =
        Except.ok (Url.new "wss://example.com/") :=
  ⟨by decide, roundtrip_amended "wss://example.com/" (by decide)⟩

/-- Claim C3 (counterexample): normalization idempotence fails as stated.
For `s = "wss://example.com//"`, `new(s).inner()` is
`"wss://example.com/"`, and re-applying `new` strips one more `/`. -/
theorem idempotence_counterexample :
    (Url.new "wss://example.com//").inner ≠
      (Url.new (Url.new "wss://example.com//").inner).inner := by decide

/-- Claim C3 (amended): for every string `s` that does not end with two
consecutive `/` characters, `new(s).inner() == new(new(s).inner()).inner()`. -/
theorem idempotence_amended (s : String)
    (h : ¬ (s.data.getLast? = some '/' ∧ s.data.dropLast.getLast? = some '/')) :
    (Url.new s).inner = (Url.new (Url.new s).inner).inner := by
  show normalize s = normalize (normalize s)
  by_cases h1 : s.data.getLast? = some '/'
  · have h2 : ¬ s.data.dropLast.getLast? = some '/' := fun h2 => h ⟨h1, h2⟩
    rw [normalize_of_last_eq s h1, normalize_of_last_ne (String.mk s.data.dropLast) h2]
  · rw [normalize_of_last_ne s h1, normalize_of_last_ne s h1]

/-- Witness for amended C3 at the concrete input `"wss://example.com/"`. -/
theorem idempotence_amended_witness :
    (¬ ("wss://example.com/".data.getLast? = some '/'
        ∧ "wss://example.com/".data.dropLast.getLast? = some '/'))
    ∧ (Url.new "wss://example.com/").inner =
        (Url.new (Url.new "wss://example.com/").inner).inner :=
  ⟨by decide, idempotence_amended "wss://example.com/" (by decide)⟩

/-- Claim C9 (confirmed): construction is total — every string produces the
`Url` with the normalized text and the recomputable flag, garbage input
just yields `is_valid() = false`, and when the input ends with `/` the
removed portion is exactly that final one-byte character (so the byte
slice `&s[0..s.len()-1]` sits on a character boundary: the input is the
kept text followed by `"/"`). -/
theorem construction_total (s : String) :
    (Url.new s = ⟨normalize s, (parseUri (normalize s)).isSome⟩)
    ∧ ((parseUri (Url.new s).inner).isSome = false → (Url.new s).is_valid = false)
    ∧ (s.data.getLast? = some '/' →
        (Url.new s).inner = String.mk s.data.dropLast
        ∧ s = String.mk s.data.dropLast ++ "/") := by
  refine ⟨rfl, fun h => h, fun hl => ?_⟩
  have hne : s.data ≠ [] := by
    intro he
    rw [he] at hl
    exact Option.noConfusion hl
  have hlast : s.data.getLast hne = '/' := by
    have hg := List.getLast?_eq_getLast s.data hne
    rw [hg] at hl
    exact Option.some.inj hl
  have hsplit : s.data.dropLast ++ ['/'] = s.data := by
    have hd := List.dropLast_append_getLast hne
    rw [hlast] at hd
    exact hd
  refine ⟨by rw [new_inner, normalize_of_last_eq s hl], ?_⟩
  cases s with
  | mk l =>
    show String.mk l = String.mk l.dropLast ++ String.mk ['/']
    rw [mk_append, hsplit]

/-- Witness for C9 at the concrete input `"a/"`. -/
theorem construction_total_witness :
    ("a/".data.getLast? = some '/')
    ∧ ((Url.new "a/").inner = String.mk "a/".data.dropLast
        ∧ "a/" = String.mk "a/".data.dropLast ++ "/") :=
  ⟨by decide, (construction_total "a/").2.2 (by decide)⟩

/-- Claim C4 (confirmed): `is_valid_relay_url` returns true only if the
stored text parses as a URI whose scheme is present and is exactly `"ws"`
or `"wss"`; in particular an `https` URL is rejected. -/
theorem relay_scheme_rule :
    (∀ u : Url, u.is_valid_relay_url = true →
      ∃ uri, parseUri u.text = some uri
        ∧ ∃ sch, uri.scheme = some sch ∧ (sch = "ws" ∨ sch = "wss"))
    ∧ (Url.new "https://relay.example.com").is_valid_relay_url = false := by
  refine ⟨fun u h => ?_, by decide⟩
  unfold Url.is_valid_relay_url at h
  split at h
  next uri heq =>
    split at h
    next sch hs =>
      split at h
      next hws => exact ⟨uri, heq, sch, hs, hws.symm⟩
      next => exact Bool.noConfusion h
    next => exact Bool.noConfusion h
  next => exact Bool.noConfusion h

/-- Witness for C4 at the concrete input `"wss://relay.example.com"`. -/
theorem relay_scheme_rule_witness :
    ((Url.new "wss://relay.example.com").is_valid_relay_url = true)
    ∧ ∃ uri, parseUri (Url.new "wss://relay.example.com").text = some uri
        ∧ ∃ sch, uri.scheme = some sch ∧ (sch = "ws" ∨ sch = "wss") :=
  ⟨by decide, relay_scheme_rule.1 (Url.new "wss://relay.example.com") (by decide)⟩

/-- Claim C5 (confirmed): for a value whose text parses with a `ws`/`wss`
scheme and an authority, relay validity holds iff the host equals its
whitespace-trimmed form and starts with none of the literal prefixes
`localhost`, `127.`, `[::1/`, `[0:`. -/
theorem relay_host_blocklist (u : Url) (uri : Uri) (sch : String) (auth : Authority)
    (h1 : parseUri u.text = some uri) (h2 : uri.scheme = some sch)
    (h3 : sch = "ws" ∨ sch = "wss") (h4 : uri.authority = some auth) :
    u.is_valid_relay_url = true ↔
      (auth.host = strTrim auth.host
        ∧ hostStarts auth.host "localhost" = false
        ∧ hostStarts auth.host "127." = false
        ∧ hostStarts auth.host "[::1/" = false
        ∧ hostStarts auth.host "[0:" = false) := by
  have hcond : sch = "wss" ∨ sch = "ws" := h3.symm
  simp only [Url.is_valid_relay_url, h1, h2, h4, if_pos hcond, Bool.and_eq_true,
    beq_iff_eq, Bool.not_eq_true']
  tauto

/-- Witness for C5 at the concrete input `"ws://127.0.0.1"`. -/
theorem relay_host_blocklist_witness :
    (Url.new "ws://127.0.0.1").is_valid_relay_url = true ↔
      ("127.0.0.1" = strTrim "127.0.0.1"
        ∧ hostStarts "127.0.0.1" "localhost" = false
        ∧ hostStarts "127.0.0.1" "127." = false
        ∧ hostStarts "127.0.0.1" "[::1/" = false
        ∧ hostStarts "127.0.0.1" "[0:" = false) :=
  relay_host_blocklist (Url.new "ws://127.0.0.1")
    ⟨some "ws", some ⟨none, "127.0.0.1", none⟩, "", none, none⟩ "ws"
    ⟨none, "127.0.0.1", none⟩ rfl rfl (Or.inl rfl) rfl

/-- Claim C6 (confirmed): a constructed value with `is_valid() = false` also
has `is_valid_relay_url() = false`, because relay validity re-parses the
same stored text and a parse failure short-circuits to false. -/
theorem invalid_implies_not_relay (s : String)
    (h : (Url.new s).is_valid = false) :
    (Url.new s).is_valid_relay_url = false := by
  have h2 : (parseUri (Url.new s).text).isSome = false := h
  have hp : parseUri (Url.new s).text = none :=
    Option.not_isSome_iff_eq_none.mp (by simp [h2])
  unfold Url.is_valid_relay_url
  rw [hp]

/-- Witness for C6 at the concrete input `"not a url"`. -/
theorem invalid_implies_not_relay_witness :
    ((Url.new "not a url").is_valid = false)
    ∧ (Url.new "not a url").is_valid_relay_url = false :=
  ⟨by decide, invalid_implies_not_relay "not a url" (by decide)⟩

/-- Claim C10 (confirmed): every string scalar decodes successfully to
`new` of that string; a decode error can only arise from a non-string
scalar, as a pass-through error of the codec layer. -/
theorem decode_total_on_strings :
    (∀ s : String, Url.deserialize (Value.str s) = Except.ok (Url.new s))
    ∧ (∀ (v : Value) (e : DeError), Url.deserialize v = Except.error e →
        ∀ s : String, v ≠ Value.str s) := by
  refine ⟨fun s => rfl, fun v e he s hv => ?_⟩
  subst hv
  exact absurd he (by simp [Url.deserialize, UrlVisitor.visit_str])

/-- Witness for C10 at the concrete non-string scalar. -/
theorem decode_total_on_strings_witness :
    (Url.deserialize Value.other = Except.error DeError.invalidType)
    ∧ Value.other ≠ Value.str "x" :=
  ⟨rfl, decode_total_on_strings.2 Value.other DeError.invalidType rfl "x"⟩

end Nostr
